import Mathlib

/-
  Verification development for the Chatty assistant repository
  (src/ChattyAssistant.py, src/tools.py).

  The Python code is shallowly embedded: pure helpers become Lean
  functions over `List Char` (Python strings), the mutable assistant
  state becomes an explicit record, and external effects (the model
  backend, the filesystem, the search provider, `exec`) become explicit
  oracle parameters.  Machine floats of the settings dialogue are
  modelled as exact rationals, since the claims only concern the
  control flow of interval checks.
-/

/-! ## Python string helpers (str.split, str.strip, truthiness) -/

/-- JSON whitespace accepted by Python's `json` module. -/
def isJsonWs (c : Char) : Bool :=
  c = ' ' || c = '\t' || c = '\n' || c = '\r'

/-- Whitespace stripped by Python's `str.strip()` (ASCII part). -/
def isPyWs (c : Char) : Bool :=
  isJsonWs c || c = '\x0b' || c = '\x0c'

/-- Drop leading JSON whitespace. -/
def skipWs : List Char → List Char
  | [] => []
  | c :: r => if isJsonWs c then skipWs r else c :: r

/-- Python `str.strip()`: drop leading and trailing whitespace. -/
def pyStrip (l : List Char) : List Char :=
  ((l.dropWhile isPyWs).reverse.dropWhile isPyWs).reverse

/-- Split a list at the first occurrence of `sep`, returning the part
before and the part after the separator; `none` when `sep` does not
occur.  Mirrors the first step of Python's `str.split(sep)`. -/
def splitFirst (sep : List Char) : List Char → Option (List Char × List Char)
  | [] => none
  | c :: t =>
    if sep.isPrefixOf (c :: t) then some ([], (c :: t).drop sep.length)
    else
      match splitFirst sep t with
      | some (p, q) => some (c :: p, q)
      | none => none

/-- Does `sep` occur as a contiguous segment of `l`? -/
def occursIn (sep l : List Char) : Bool :=
  (splitFirst sep l).isSome

/-- Fueled worker for Python `str.split(sep)`. -/
def pySplitAux (sep : List Char) : Nat → List Char → List (List Char)
  | 0, l => [l]
  | Nat.succ fuel, l =>
    match splitFirst sep l with
    | none => [l]
    | some (p, q) => p :: pySplitAux sep fuel q

/-- Python `str.split(sep)` for a non-empty separator. -/
def pySplit (sep l : List Char) : List (List Char) :=
  pySplitAux sep (l.length + 1) l

/-- The backtick character (written by code, never as a literal). -/
def backtickChar : Char := '\x60'

/-- The markdown fence marker consisting of three backticks. -/
def fence3 : List Char := [backtickChar, backtickChar, backtickChar]

/-- The opener of a markdown block labeled `json`. -/
def fenceJson : List Char := fence3 ++ ['j', 's', 'o', 'n']

/-- The opener of a markdown block labeled `python`. -/
def fencePython : List Char := fence3 ++ ['p', 'y', 't', 'h', 'o', 'n']

/-! ## JSON values and a fueled parser (model of Python `json.loads`) -/

/-- JSON values.  Numbers are stored exactly as a scaled integer
`mantissa / 10 ^ fracLen`; object insertion replaces earlier bindings
of the same key, as Python `dict` construction does. -/
inductive JVal where
  | jnull
  | jbool (b : Bool)
  | jnum (mantissa : Int) (fracLen : Nat)
  | jstr (s : List Char)
  | jarr (elems : List JVal)
  | jobj (fields : List (List Char × JVal))

/-- Insert a key/value pair as Python `dict` does: replace an existing
binding of the key, otherwise append. -/
def objInsert (kvs : List (List Char × JVal)) (k : List Char) (v : JVal) :
    List (List Char × JVal) :=
  if kvs.any (fun p => p.1 = k) then
    kvs.map (fun p => if p.1 = k then (k, v) else p)
  else kvs ++ [(k, v)]

/-- Numeric value of a hexadecimal digit. -/
def hexVal (c : Char) : Option Nat :=
  if '0' ≤ c ∧ c ≤ '9' then some (c.toNat - 48)
  else if 'a' ≤ c ∧ c ≤ 'f' then some (c.toNat - 87)
  else if 'A' ≤ c ∧ c ≤ 'F' then some (c.toNat - 55)
  else none

/-- Single-character JSON string escapes. -/
def escChar (c : Char) : Option Char :=
  if c = '"' then some '"'
  else if c = '\\' then some '\\'
  else if c = '/' then some '/'
  else if c = 'b' then some '\x08'
  else if c = 'f' then some '\x0c'
  else if c = 'n' then some '\n'
  else if c = 'r' then some '\r'
  else if c = 't' then some '\t'
  else none

/-- Parse the body of a JSON string after the opening quote. -/
def parseStrAux : Nat → List Char → List Char → Option (List Char × List Char)
  | 0, _, _ => none
  | Nat.succ f, acc, l =>
    match l with
    | [] => none
    | c :: r =>
      if c = '"' then some (acc.reverse, r)
      else if c = '\\' then
        match r with
        | [] => none
        | e :: r2 =>
          if e = 'u' then
            match r2 with
            | h1 :: h2 :: h3 :: h4 :: r3 =>
              match hexVal h1, hexVal h2, hexVal h3, hexVal h4 with
              | some a, some b, some cc, some dd =>
                parseStrAux f
                  (Char.ofNat (((a * 16 + b) * 16 + cc) * 16 + dd) :: acc) r3
              | _, _, _, _ => none
            | _ => none
          else
            match escChar e with
            | some c2 => parseStrAux f (c2 :: acc) r2
            | none => none
      else if c.toNat < 32 then none
      else parseStrAux f (c :: acc) r

/-- Digits to a natural number. -/
def digitsToNat (ds : List Char) : Nat :=
  ds.foldl (fun a c => a * 10 + (c.toNat - 48)) 0

/-- Parse the digits of a JSON number after the optional sign. -/
def parseNumBody (neg : Bool) (l1 : List Char) : Option (JVal × List Char) :=
  let ds := l1.takeWhile Char.isDigit
  let r1 := l1.dropWhile Char.isDigit
  if ds = [] then none
  else
    let sign : Int := if neg then -1 else 1
    if r1.head? = some '.' then
      let r2 := r1.tail
      let fs := r2.takeWhile Char.isDigit
      let r3 := r2.dropWhile Char.isDigit
      if fs = [] then none
      else some (.jnum (sign * (digitsToNat (ds ++ fs) : Int)) fs.length, r3)
    else some (.jnum (sign * (digitsToNat ds : Int)) 0, r1)

/-- Parse a JSON number (sign, digits, optional fraction). -/
def parseNum (l : List Char) : Option (JVal × List Char) :=
  if l.head? = some '-' then parseNumBody true l.tail else parseNumBody false l

/-- The character `{`. -/
def lbrace : Char := '\x7b'

/-- The character `}`. -/
def rbrace : Char := '\x7d'

mutual

/-- Fueled parser for a JSON value with its trailing remainder. -/
def parseVal : Nat → List Char → Option (JVal × List Char)
  | 0, _ => none
  | Nat.succ f, l =>
    match skipWs l with
    | [] => none
    | c :: r =>
      if c = '"' then
        match parseStrAux (r.length + 1) [] r with
        | some (s, rest) => some (.jstr s, rest)
        | none => none
      else if c = '[' then parseArrStart f r
      else if c = lbrace then parseObjStart f r
      else if c = '-' || c.isDigit then parseNum (c :: r)
      else if ['n', 'u', 'l', 'l'].isPrefixOf (c :: r) then
        some (.jnull, (c :: r).drop 4)
      else if ['t', 'r', 'u', 'e'].isPrefixOf (c :: r) then
        some (.jbool true, (c :: r).drop 4)
      else if ['f', 'a', 'l', 's', 'e'].isPrefixOf (c :: r) then
        some (.jbool false, (c :: r).drop 5)
      else none

/-- Parse the inside of an array, after the opening bracket. -/
def parseArrStart : Nat → List Char → Option (JVal × List Char)
  | 0, _ => none
  | Nat.succ f, l =>
    match skipWs l with
    | [] => none
    | d :: r =>
      if d = ']' then some (.jarr [], r)
      else parseArrElems f (d :: r) []

/-- Parse the comma-separated elements of a non-empty array. -/
def parseArrElems : Nat → List Char → List JVal → Option (JVal × List Char)
  | 0, _, _ => none
  | Nat.succ f, l, acc =>
    match parseVal f l with
    | none => none
    | some (v, rest) =>
      match skipWs rest with
      | [] => none
      | d :: r =>
        if d = ',' then parseArrElems f r (v :: acc)
        else if d = ']' then some (.jarr (v :: acc).reverse, r)
        else none

/-- Parse the inside of an object, after the opening brace. -/
def parseObjStart : Nat → List Char → Option (JVal × List Char)
  | 0, _ => none
  | Nat.succ f, l =>
    match skipWs l with
    | [] => none
    | c :: r =>
      if c = rbrace then some (.jobj [], r)
      else parseObjElems f (c :: r) []

/-- Parse the comma-separated members of a non-empty object. -/
def parseObjElems : Nat → List Char →
    List (List Char × JVal) → Option (JVal × List Char)
  | 0, _, _ => none
  | Nat.succ f, l, acc =>
    match skipWs l with
    | [] => none
    | d :: r =>
      if d = '"' then
        match parseStrAux (r.length + 1) [] r with
        | none => none
        | some (k, rest) =>
          match skipWs rest with
          | [] => none
          | d2 :: r2 =>
            if d2 = ':' then
              match parseVal f r2 with
              | none => none
              | some (v, rest2) =>
                match skipWs rest2 with
                | [] => none
                | d3 :: r3 =>
                  if d3 = ',' then parseObjElems f r3 (objInsert acc k v)
                  else if d3 = rbrace then
                    some (.jobj (objInsert acc k v), r3)
                  else none
            else none
      else none

end

/-- Strip leading and trailing JSON whitespace. -/
def jsonStrip (l : List Char) : List Char :=
  ((l.dropWhile isJsonWs).reverse.dropWhile isJsonWs).reverse

/-- Fueled decode of a whole (already stripped) text: parse one value
and require only whitespace to remain. -/
def jloadsCore (l : List Char) : Option JVal :=
  match parseVal (4 * l.length + 8) l with
  | some (v, rest) => if skipWs rest = [] then some v else none
  | none => none

/-- Model of Python `json.loads`.  `json.loads` accepts and ignores
leading and trailing JSON whitespace around the document, so the model
normalizes it away first and then decodes the stripped text. -/
def jloads (l : List Char) : Option JVal := jloadsCore (jsonStrip l)

/-! ## The response interpreter (`_parse_llm_json`, `_extract_code`) -/

/-- Model of `ChattyAssistant._parse_llm_json`: try `json.loads` on the
whole text; on failure, take `text.split('\x60\x60\x60json')[1]`, cut it at the
next fence with `.split('\x60\x60\x60')[0]`, strip it, and decode that; an
`IndexError` or a second decode failure yields `None`. -/
def parse_llm_json (l : List Char) : Option JVal :=
  match jloads l with
  | some v => some v
  | none =>
    match (pySplit fenceJson l).get? 1 with
    | none => none
    | some part => jloads (pyStrip ((pySplit fence3 part).headI))

/-- Model of `ChattyAssistant._extract_code`:
`text.split('\x60\x60\x60python')[1].split('\x60\x60\x60')[0].strip()`, with `IndexError`
mapped to `None`. -/
def extract_code (l : List Char) : Option (List Char) :=
  match (pySplit fencePython l).get? 1 with
  | none => none
  | some part => some (pyStrip ((pySplit fence3 part).headI))

/-- Wrap a reply in a markdown code fence labeled `json`. -/
def fenceWrap (l : List Char) : List Char :=
  fenceJson ++ '\n' :: (l ++ '\n' :: fence3)

/-! ## Python value helpers used by the orchestrator -/

/-- Python truthiness of a decoded JSON value (`not response`). -/
def pyTruthy : JVal → Bool
  | .jnull => false
  | .jbool b => b
  | .jnum m _ => m ≠ 0
  | .jstr s => s ≠ []
  | .jarr l => !l.isEmpty
  | .jobj l => !l.isEmpty

/-- Python `dict.get(key)`: `none` models the absent key (Python `None`). -/
def pyGet (kvs : List (List Char × JVal)) (k : List Char) : Option JVal :=
  match kvs.find? (fun p => p.1 = k) with
  | some p => some p.2
  | none => none

/-- Python `==` between a decoded value and a string literal. -/
def isStrEq (v : JVal) (s : List Char) : Bool :=
  match v with
  | .jstr t => t = s
  | _ => false

/-- A rough Python `str()` of an optional decoded value, used only
inside error-message text. -/
def pyRepr : Option JVal → String
  | none => "None"
  | some .jnull => "None"
  | some (.jbool true) => "True"
  | some (.jbool false) => "False"
  | some (.jnum m _) => toString m
  | some (.jstr s) => String.mk s
  | some (.jarr _) => "[...]"
  | some (.jobj _) => "\x7b...\x7d"

/-- Keys and tags the orchestrator reads from decoded replies. -/
def keyType : List Char := "type".data

/-- The `tool_name` key. -/
def keyToolName : List Char := "tool_name".data

/-- The `arguments` key. -/
def keyArguments : List Char := "arguments".data

/-- The `query` key. -/
def keyQuery : List Char := "query".data

/-- The `TOOL_USE` action tag. -/
def tagToolUse : List Char := "TOOL_USE".data

/-- The `CODE` action tag. -/
def tagCode : List Char := "CODE".data

/-- The `action` keyword of `FileTool.run`. -/
def keyAction : List Char := "action".data

/-- The `filename` keyword of `FileTool.run`. -/
def keyFilename : List Char := "filename".data

/-- The `content` keyword of `FileTool.run`. -/
def keyContent : List Char := "content".data

/-! ## Transcript and assistant state -/

/-- One transcript entry: `{"role": ..., "content": ...}`.  The content
may be Python `None` (the main loop appends a failed completion as is). -/
structure Turn where
  role : String
  content : Option String
deriving DecidableEq

/-- The orchestrator's mutable state: the transcript and the retained
code fragment (`last_generated_code`). -/
structure AsstState where
  chat_history : List Turn
  last_generated_code : Option String
deriving DecidableEq

instance : Inhabited Turn := ⟨⟨"", none⟩⟩

/-- `ChattyAssistant.__init__`: the transcript starts as the single
system turn; no code is retained. -/
def initState (sys : Turn) : AsstState :=
  { chat_history := [sys], last_generated_code := none }

/-- `ChattyAssistant._load_history`: `chat_history.extend(loaded)`.
A missing or unreadable file leaves the state unchanged (`ts = []`). -/
def load_history (s : AsstState) (ts : List Turn) : AsstState :=
  { s with chat_history := s.chat_history ++ ts }

/-- `ChattyAssistant._clear_history`: on a confirming answer the
transcript is reset to `[self.chat_history[0]]`; otherwise nothing
changes.  (`headI` is total; under the reachability invariant the
transcript is never empty, matching the Python index `[0]`.) -/
def clear_history (s : AsstState) (confirmed : Bool) : AsstState :=
  if confirmed then { s with chat_history := [s.chat_history.headI] } else s

/-! ## Transport (`_send_to_ollama`) -/

/-- Outcome of one HTTP attempt: a 2xx body, an `aiohttp.ClientError`
(connection failure or, via `raise_for_status`, a non-2xx status), or
any other exception. -/
inductive Attempt where
  | ok (text : String)
  | netErr
  | unexpected
deriving DecidableEq

/-- The value `_send_to_ollama` returns: a decoded JSON reply (for
`format_as="json"`) or the raw text (for `format_as="text"`). -/
inductive SendRes where
  | jsonRes (v : Option JVal)
  | textRes (s : String)

/-- Worker for the retry loop `for attempt in range(max_retries)`:
given the outcome of each attempt, returns the result, the list of
backoff sleeps (`2 ** attempt`) performed, and whether the final
"network error after multiple attempts" message was printed. -/
def sendAux (outcomes : Nat → Attempt) (formatJson : Bool) :
    Nat → Nat → Option SendRes × List Nat × Bool
  | _, 0 => (none, [], true)
  | i, Nat.succ rem =>
    match outcomes i with
    | .ok text =>
      (some (if formatJson then .jsonRes (parse_llm_json text.data)
             else .textRes text), [], false)
    | .netErr =>
      let (r, sleeps, msg) := sendAux outcomes formatJson (i + 1) rem
      (r, 2 ^ i :: sleeps, msg)
    | .unexpected => (none, [], false)

/-- Model of `ChattyAssistant._send_to_ollama` with `max_retries = 3`. -/
def send_to_ollama (outcomes : Nat → Attempt) (formatJson : Bool) :
    Option SendRes × List Nat × Bool :=
  sendAux outcomes formatJson 0 3

/-! ## The sandboxed executor (`_run_code`) and `run code` command -/

/-- The environment `_run_code` hands to `exec`: the allow-listed
builtins and the (always empty) starting local bindings. -/
structure ExecEnv where
  builtins : List String
  locals0 : List (String × String)
deriving DecidableEq

/-- The allow-listed builtin names of `safe_globals["__builtins__"]`. -/
def safe_builtin_names : List String :=
  ["print", "len", "range", "str", "int", "float", "list", "dict",
   "tuple", "set", "type", "zip", "sum", "min", "max", "abs", "round"]

/-- The fresh sandbox environment built on every `_run_code` call:
allow-listed builtins, empty `safe_locals`. -/
def freshEnv : ExecEnv :=
  { builtins := safe_builtin_names, locals0 := [] }

/-- Outcome of Python `exec` on a fragment in a given environment:
normal completion with captured stdout/stderr, an `Exception`-derived
fault, or a `BaseException`-derived fault that is not an `Exception`
(such as `SystemExit`, which a fragment can reach with no builtins by
walking the object graph). -/
inductive ExecOutcome where
  | ok (out : String)
  | exc (msg : String)
  | baseExc (msg : String)
deriving DecidableEq

/-- Model of `ChattyAssistant._run_code`.  The `except Exception`
handler converts an `Exception`-derived fault into a diagnostic text,
but it does not catch a `BaseException`-derived fault: that one escapes
`_run_code` as a host-level fault, modelled as `.error` (the `finally`
clause still restores the redirected streams on that path). -/
def run_code (execO : String → ExecEnv → ExecOutcome)
    (code : String) : Except String String :=
  match execO code freshEnv with
  | .ok out => .ok out
  | .exc e => .ok ("An error occurred during code execution: " ++ e)
  | .baseExc e => .error e

/-- Model of `ChattyAssistant._run_last_code`: runs the retained
fragment if there is one (returning its printed output), otherwise
reports that nothing was generated; the state is only read.  A
`BaseException`-derived fault escaping `_run_code` propagates through
this command as well (`.error`), with the state untouched. -/
def run_last_code (execO : String → ExecEnv → ExecOutcome)
    (s : AsstState) : AsstState × Except String (Option String) :=
  match s.last_generated_code with
  | some code =>
    match run_code execO code with
    | .ok out => (s, .ok (some out))
    | .error e => (s, .error e)
  | none => (s, .ok none)

/-! ## Tools (src/tools.py) and the dispatcher (`_execute_tool_call`) -/

/-- One search hit; `snippet` may be missing (falsy `None`). -/
structure SearchEntry where
  snippet : Option String

/-- One page of search results. -/
structure SearchPage where
  results : List SearchEntry

/-- The external world the tools touch: the filesystem (filename to
content) and the outcome of the external search call. -/
structure World where
  fs : List (List Char × String)
  search : Except String (List SearchPage)

/-- Look up a filename in the modelled filesystem. -/
def fsRead (fs : List (List Char × String)) (f : List Char) : Option String :=
  match fs.find? (fun p => p.1 = f) with
  | some p => some p.2
  | none => none

/-- `FileTool._read_file`: content wrapped in a delimited block, or a
"file not found" text; any exception becomes a read-error text. -/
def fileRead (w : World) (fn : JVal) : String :=
  match fn with
  | .jstr f =>
    match fsRead w.fs f with
    | some content =>
      "File '" ++ String.mk f ++ "' content:\n---\n" ++ content ++ "\n---"
    | none => "Error: File not found at '" ++ String.mk f ++ "'."
  | _ =>
    "Error reading file '" ++ pyRepr (some fn) ++ "': TypeError"

/-- Model of `FileTool.run(self, action, filename, content=None)`,
including the `**kwargs` binding: `action` and `filename` are required,
`content` optional, no other keys are accepted.  A JSON `null` content
binds to Python `None`, exactly like an absent key. -/
def fileToolRun (w : World) (kvs : List (List Char × JVal)) :
    Except String String × World :=
  if kvs.any (fun p =>
      p.1 ≠ keyAction ∧ p.1 ≠ keyFilename ∧ p.1 ≠ keyContent) then
    (.error "run() got an unexpected keyword argument", w)
  else
    match pyGet kvs keyAction, pyGet kvs keyFilename with
    | some act, some fn =>
      if isStrEq act "read".data = true then (.ok (fileRead w fn), w)
      else if isStrEq act "write".data = true then
        let content := pyGet kvs keyContent
        if (match content with
            | none => true
            | some .jnull => true
            | some _ => false : Bool) then
          (.ok "Error: 'content' argument is required for 'write' action.", w)
        else
          match fn, content with
          | .jstr f, some (.jstr c) =>
            (.ok ("Content successfully written to '" ++ String.mk f ++ "'."),
             { w with fs := (f, String.mk c) :: (w.fs.filter (fun p => p.1 ≠ f)) })
          | _, _ =>
            (.ok ("Error writing to file '" ++ pyRepr (some fn) ++ "': TypeError"), w)
      else
        (.ok ("Error: Invalid action '" ++ pyRepr (some act) ++
              "'. Use 'read' or 'write'."), w)
    | _, _ =>
      (.error "run() missing required positional arguments", w)

/-- The two bounded parameters of `Config`, modelled exactly. -/
structure SettingsSt where
  tempConversation : ℚ
  tempSearch : ℚ
deriving DecidableEq

/-- The interval check `0.1 <= v <= 1.0`. -/
def inRange (v : ℚ) : Bool :=
  decide ((1 : ℚ) / 10 ≤ v) && decide (v ≤ 1)

/-- Python `input().lower().startswith('y')`. -/
def confirmsYes (s : String) : Bool :=
  match s.data with
  | c :: _ => c.toLower = 'y'
  | [] => false

/-- Model of `ChattyAssistant.manage_settings` after the display.  Each
input is the result of `float(input(...))`: `some v`, or `none` for the
`ValueError` raised on non-numeric text.  A `ValueError` jumps to the
handler at once, so a non-numeric first input skips the second prompt
entirely; the returned flag records whether `Config.save_settings()`
ran. -/
def manage_settings (st : SettingsSt) (confirm : String)
    (inp1 inp2 : Option ℚ) : SettingsSt × Bool :=
  if confirmsYes confirm = false then (st, false)
  else
    match inp1 with
    | none => (st, false)
    | some v1 =>
      let st1 := if inRange v1 then { st with tempConversation := v1 } else st
      match inp2 with
      | none => (st1, false)
      | some v2 =>
        let st2 := if inRange v2 then { st1 with tempSearch := v2 } else st1
        (st2, true)

/-! ## One iteration of the main loop (lines 272-308 of `run`) -/

/-- Observable outcome of one non-command loop iteration. -/
inductive IterOut where
  | cantProcess
  | toolFlow (toolResult : String) (finalText : Option String)
  | directFlow (isCode : Bool) (replyText : Option String)
  | raised (msg : String)
deriving DecidableEq

/-- The `TOOL_USE` branch of `ChattyAssistant.run` (lines 279-295): run
the dispatcher, append the `tool_output` turn, request a plain-text
summary, append it as an `assistant` turn. -/
def toolBranch (s : AsstState) (kvs : List (List Char × JVal))
    (sendText : Option JVal → Option String)
    (toolExec : Option JVal → JVal → String) : AsstState × IterOut :=
  let tool_name := pyGet kvs keyToolName
  let tool_args := (pyGet kvs keyArguments).getD (.jobj [])
  let tool_output := toolExec tool_name tool_args
  let s1 := { s with chat_history :=
    s.chat_history ++ [Turn.mk "tool_output" (some tool_output)] }
  let finalText := sendText (some (.jstr
    ("User input\nTool Output: " ++ tool_output).data))
  let s2 := { s1 with chat_history :=
    s1.chat_history ++ [Turn.mk "assistant" finalText] }
  (s2, .toolFlow tool_output finalText)

/-- The `CODE`/`CONVERSATION` branch of `ChattyAssistant.run` (lines
298-308): request a plain-text completion on the `query` field, append
it as an `assistant` turn; for `CODE`, store `_extract_code` of the
reply as `last_generated_code` (a `None` reply makes `_extract_code`
raise `AttributeError`). -/
def directBranch (s : AsstState) (kvs : List (List Char × JVal))
    (sendText : Option JVal → Option String) (isCode : Bool) :
    AsstState × IterOut :=
  let query := pyGet kvs keyQuery
  let replyText := sendText query
  let s1 := { s with chat_history :=
    s.chat_history ++ [Turn.mk "assistant" replyText] }
  if isCode then
    match replyText with
    | none => (s1, .raised "AttributeError")
    | some text =>
      ({ s1 with last_generated_code := (extract_code text.data).map String.mk },
       .directFlow true (some text))
  else (s1, .directFlow false replyText)

/-- Dispatch on the `type` field of a decoded mapping reply (lines
272-298): a missing or falsy `type` prints the generic "cannot
process" message; `TOOL_USE` enters the tool branch; anything else
(including unrecognized tags) enters the direct branch. -/
def classifyDispatch (s : AsstState) (kvs : List (List Char × JVal))
    (sendText : Option JVal → Option String)
    (toolExec : Option JVal → JVal → String) : AsstState × IterOut :=
  match pyGet kvs keyType with
  | none => (s, .cantProcess)
  | some tv =>
    if pyTruthy tv = false then (s, .cantProcess)
    else if isStrEq tv tagToolUse = true then toolBranch s kvs sendText toolExec
    else directBranch s kvs sendText (isStrEq tv tagCode)

/-- Model of the classification-and-dispatch part of `ChattyAssistant.run`:
`response` is the decoded classification reply, `sendText` the second
`_send_to_ollama` call (plain-text format), `toolExec` the
`_execute_tool_call` boundary.  A falsy `response` (Python
`not response`) prints the generic message; a truthy non-mapping makes
`response.get` raise `AttributeError`, carried to the loop-level
handler by `.raised` together with the state mutations already done. -/
def loopIteration (s : AsstState) (response : Option JVal)
    (sendText : Option JVal → Option String)
    (toolExec : Option JVal → JVal → String) : AsstState × IterOut :=
  match response with
  | none => (s, .cantProcess)
  | some r =>
    if pyTruthy r = false then (s, .cantProcess)
    else
      match r with
      | .jobj kvs => classifyDispatch s kvs sendText toolExec
      | _ => (s, .raised "AttributeError")

/-! ## Reachable assistant states (for the transcript invariant) -/

/-- Reachability of an assistant state from construction with system
turn `sys`, under every state-changing operation of the program:
loading history, main-loop iterations, the `run code` command and the
confirmed or declined `clear history` command. -/
inductive Reachable (sys : Turn) : AsstState → Prop where
  | init : Reachable sys (initState sys)
  | load {s} (ts : List Turn) :
      Reachable sys s → Reachable sys (load_history s ts)
  | iter {s} (response : Option JVal)
      (sendText : Option JVal → Option String)
      (toolExec : Option JVal → JVal → String) :
      Reachable sys s →
      Reachable sys (loopIteration s response sendText toolExec).1
  | runCode {s} (execO : String → ExecEnv → ExecOutcome) :
      Reachable sys s → Reachable sys (run_last_code execO s).1
  | clear {s} (confirmed : Bool) :
      Reachable sys s → Reachable sys (clear_history s confirmed)

/-! ## Helper lemmas about the string utilities -/

theorem isPrefixOf_iff_ex (s : List Char) :
    ∀ l, s.isPrefixOf l = true ↔ ∃ t, l = s ++ t := by
  induction s with
  | nil => intro l; simp [List.isPrefixOf]
  | cons a s ih =>
    intro l
    cases l with
    | nil => simp [List.isPrefixOf]
    | cons b t =>
      simp only [List.isPrefixOf, Bool.and_eq_true, beq_iff_eq, ih t]
      constructor
      · rintro ⟨rfl, u, rfl⟩
        exact ⟨u, rfl⟩
      · rintro ⟨u, h⟩
        injection h with h1 h2
        exact ⟨h1.symm, u, h2⟩

theorem isPrefixOf_append_self (s t : List Char) : s.isPrefixOf (s ++ t) = true :=
  (isPrefixOf_iff_ex s (s ++ t)).mpr ⟨t, rfl⟩

theorem splitFirst_decomp (sep : List Char) :
    ∀ l p q, splitFirst sep l = some (p, q) → l = p ++ sep ++ q := by
  intro l
  induction l with
  | nil => intro p q h; simp [splitFirst] at h
  | cons c t ih =>
    intro p q h
    rw [splitFirst] at h
    split at h
    · rename_i hpre
      obtain ⟨u, hu⟩ := (isPrefixOf_iff_ex sep (c :: t)).mp hpre
      have hdrop : (c :: t).drop sep.length = u := by
        rw [hu]; exact List.drop_left sep u
      rw [hdrop] at h
      injection h with h2
      injection h2 with hp hq
      subst hp; subst hq
      simpa using hu
    · rename_i hpre
      rcases hsp : splitFirst sep t with _ | ⟨p2, q2⟩
      · rw [hsp] at h; simp at h
      · rw [hsp] at h
        injection h with h2
        injection h2 with hp hq
        subst hp; subst hq
        have := ih p2 q2 hsp
        simp [this]

theorem occursIn_append (sep x y : List Char) (hne : x ++ sep ++ y ≠ []) :
    occursIn sep (x ++ sep ++ y) = true := by
  induction x with
  | nil =>
    simp only [List.nil_append] at hne ⊢
    rcases hsy : sep ++ y with _ | ⟨c, t⟩
    · exact absurd hsy hne
    · have hp : sep.isPrefixOf (c :: t) = true := by
        rw [← hsy]; exact isPrefixOf_append_self sep y
      unfold occursIn
      rw [splitFirst, if_pos hp]
      rfl
  | cons a x2 ih =>
    unfold occursIn
    rw [List.cons_append, List.cons_append, splitFirst]
    split
    · rfl
    · rename_i hpre
      have hsep : sep ≠ [] := by
        intro hs
        subst hs
        simp [List.isPrefixOf] at hpre
      have hne2 : x2 ++ sep ++ y ≠ [] := by
        simp [List.append_eq_nil, hsep]
      have := ih hne2
      unfold occursIn at this
      rcases hsp : splitFirst sep (x2 ++ sep ++ y) with _ | ⟨p, q⟩
      · rw [hsp] at this; simp at this
      · rfl

theorem occursIn_cons_false (sep : List Char) (c : Char) (l : List Char)
    (h : occursIn sep (c :: l) = false) : occursIn sep l = false := by
  unfold occursIn at h ⊢
  rcases hsp : splitFirst sep l with _ | ⟨p, q⟩
  · rfl
  · rw [splitFirst, hsp] at h
    split at h <;> simp at h

theorem splitFirst_none_of_not_occ (sep l : List Char)
    (h : occursIn sep l = false) : splitFirst sep l = none := by
  unfold occursIn at h
  rcases hsp : splitFirst sep l with _ | pq
  · rfl
  · rw [hsp] at h; simp at h

theorem noFence3_tail (J : List Char) (hJ : occursIn fence3 J = false) :
    ∀ x z, J ++ '\n' :: fence3 = x ++ (fence3 ++ z) → z = [] := by
  induction J with
  | nil =>
    intro x z h
    rcases x with _ | ⟨a, x2⟩
    · simp only [List.nil_append, fence3] at h
      injection h with h1 _
      exact absurd h1 (by decide)
    · simp only [List.cons_append, List.nil_append] at h
      injection h with _ h2
      have hlen := congrArg List.length h2
      simp [fence3, List.length_append] at hlen
      exact List.length_eq_zero.mp (by omega)
  | cons c J2 ih =>
    intro x z h
    rcases x with _ | ⟨a, x2⟩
    · simp only [List.nil_append, fence3, List.cons_append] at h
      injection h with h1 h2
      rcases J2 with _ | ⟨c2, J3⟩
      · simp only [List.nil_append, fence3] at h2
        injection h2 with h3 _
        exact absurd h3 (by decide)
      · simp only [List.cons_append] at h2
        injection h2 with h3 h4
        rcases J3 with _ | ⟨c3, J4⟩
        · simp only [List.nil_append, fence3] at h4
          injection h4 with h5 _
          exact absurd h5 (by decide)
        · simp only [List.cons_append] at h4
          injection h4 with h5 _
          subst h1; subst h3; subst h5
          simp [occursIn, splitFirst, fence3, List.isPrefixOf] at hJ
    · simp only [List.cons_append] at h
      injection h with _ h2
      exact ih (occursIn_cons_false _ _ _ hJ) x2 z h2

theorem rest_decomp_z_nil (J : List Char) (hJ : occursIn fence3 J = false) :
    ∀ x z, ('\n' :: (J ++ '\n' :: fence3)) = x ++ (fence3 ++ z) → z = [] := by
  intro x z h
  rcases x with _ | ⟨a, x2⟩
  · simp only [List.nil_append, fence3] at h
    injection h with h1 _
    exact absurd h1 (by decide)
  · simp only [List.cons_append] at h
    injection h with _ h2
    exact noFence3_tail J hJ x2 z h2

theorem splitFirst_rest (J : List Char) (hJ : occursIn fence3 J = false) :
    splitFirst fence3 ('\n' :: (J ++ '\n' :: fence3)) =
      some ('\n' :: (J ++ ['\n']), []) := by
  have hshape : ('\n' :: (J ++ '\n' :: fence3)) =
      ('\n' :: (J ++ ['\n'])) ++ fence3 ++ [] := by simp
  have hocc : occursIn fence3 ('\n' :: (J ++ '\n' :: fence3)) = true := by
    rw [hshape]
    exact occursIn_append _ _ _ (by simp [fence3])
  unfold occursIn at hocc
  rcases hsp : splitFirst fence3 ('\n' :: (J ++ '\n' :: fence3)) with _ | ⟨p, q⟩
  · rw [hsp] at hocc; simp at hocc
  · have hd := splitFirst_decomp fence3 _ p q hsp
    have hz : q = [] := by
      refine rest_decomp_z_nil J hJ p q ?_
      rw [hd]; simp
    subst hz
    have hpq : p ++ fence3 = ('\n' :: (J ++ ['\n'])) ++ fence3 := by
      have h1 : p ++ fence3 ++ [] = ('\n' :: (J ++ ['\n'])) ++ fence3 ++ [] := by
        rw [← hd, ← hshape]
      simpa using h1
    rw [List.append_cancel_right hpq]

theorem no_fenceJson_rest (J : List Char) (hJ : occursIn fence3 J = false) :
    occursIn fenceJson ('\n' :: (J ++ '\n' :: fence3)) = false := by
  rcases hocc : occursIn fenceJson ('\n' :: (J ++ '\n' :: fence3)) with _ | _
  · rfl
  · exfalso
    unfold occursIn at hocc
    rcases hsp : splitFirst fenceJson ('\n' :: (J ++ '\n' :: fence3)) with _ | ⟨p, q⟩
    · rw [hsp] at hocc; simp at hocc
    · have hd := splitFirst_decomp fenceJson _ p q hsp
      have : ('\n' :: (J ++ '\n' :: fence3)) =
          p ++ (fence3 ++ (['j', 's', 'o', 'n'] ++ q)) := by
        rw [hd]; simp [fenceJson]
      have hz := rest_decomp_z_nil J hJ p _ this
      simp at hz

theorem pySplitAux_no_occ (sep : List Char) (f : Nat) (l : List Char)
    (hf : f ≠ 0) (h : splitFirst sep l = none) : pySplitAux sep f l = [l] := by
  rcases f with _ | f2
  · exact absurd rfl hf
  · simp [pySplitAux, h]

theorem splitFirst_head_occ (sep l : List Char) (hne : l ≠ [])
    (hp : sep.isPrefixOf l = true) :
    splitFirst sep l = some ([], l.drop sep.length) := by
  rcases l with _ | ⟨c, t⟩
  · exact absurd rfl hne
  · rw [splitFirst, if_pos hp]

theorem pySplit_fenceWrap (J : List Char) (hJ : occursIn fence3 J = false) :
    pySplit fenceJson (fenceWrap J) = [[], '\n' :: (J ++ '\n' :: fence3)] := by
  have hw : fenceWrap J = fenceJson ++ ('\n' :: (J ++ '\n' :: fence3)) := rfl
  have hsf : splitFirst fenceJson (fenceWrap J) =
      some ([], '\n' :: (J ++ '\n' :: fence3)) := by
    rw [hw]
    rw [splitFirst_head_occ fenceJson _ (by simp [fenceJson, fence3])
      (isPrefixOf_append_self _ _)]
    rw [List.drop_left]
  have hlen : (fenceWrap J).length =
      (('\n' :: (J ++ '\n' :: fence3)).length + 6) + 1 := by
    rw [hw]
    simp [fenceJson, fence3, List.length_append]
  unfold pySplit
  rw [hlen, pySplitAux, hsf]
  have hin : pySplitAux fenceJson (('\n' :: (J ++ '\n' :: fence3)).length + 7)
      ('\n' :: (J ++ '\n' :: fence3)) = ['\n' :: (J ++ '\n' :: fence3)] :=
    pySplitAux_no_occ _ _ _ (by omega)
      (splitFirst_none_of_not_occ _ _ (no_fenceJson_rest J hJ))
  simp only [hin]

theorem pySplit_rest (J : List Char) (hJ : occursIn fence3 J = false) :
    pySplit fence3 ('\n' :: (J ++ '\n' :: fence3)) =
      ['\n' :: (J ++ ['\n']), []] := by
  have hlen : ('\n' :: (J ++ '\n' :: fence3)).length = (J.length + 4) + 1 := by
    simp [fence3, List.length_append]
  unfold pySplit
  rw [hlen, pySplitAux, splitFirst_rest J hJ]
  have hin : pySplitAux fence3 (J.length + 5) ([] : List Char) = [[]] :=
    pySplitAux_no_occ _ _ _ (by omega) rfl
  simp only [hin]

theorem dropWhile_append_char (p : Char → Bool) (J t : List Char) :
    (J ++ t).dropWhile p =
      if J.dropWhile p = [] then t.dropWhile p else J.dropWhile p ++ t := by
  induction J with
  | nil => simp
  | cons c J2 ih =>
    by_cases hc : p c = true
    · simpa [List.dropWhile_cons, hc] using ih
    · simp [List.dropWhile_cons, hc]

theorem pyStrip_wrap (J : List Char) :
    pyStrip ('\n' :: (J ++ ['\n'])) = pyStrip J := by
  unfold pyStrip
  have hnl : isPyWs '\n' = true := rfl
  have h1 : ('\n' :: (J ++ ['\n'])).dropWhile isPyWs =
      (J ++ ['\n']).dropWhile isPyWs := by
    simp [List.dropWhile_cons, hnl]
  rw [h1, dropWhile_append_char]
  by_cases h2 : J.dropWhile isPyWs = []
  · simp [h2, List.dropWhile_cons, hnl]
  · rw [if_neg h2]
    simp [List.reverse_append, List.dropWhile_cons, hnl]

theorem parseVal_backtick (f : Nat) (l : List Char) :
    parseVal f (backtickChar :: l) = none := by
  cases f with
  | zero => rfl
  | succ f2 =>
    have hws : skipWs (backtickChar :: l) = backtickChar :: l := by
      rw [skipWs, if_neg (by decide)]
    simp only [parseVal, hws]
    rw [if_neg (by decide), if_neg (by decide), if_neg (by decide),
        if_neg (by decide)]
    rw [if_neg (by simp [List.isPrefixOf, backtickChar]),
        if_neg (by simp [List.isPrefixOf, backtickChar]),
        if_neg (by simp [List.isPrefixOf, backtickChar])]

theorem dropWhile_cons_neg (p : Char → Bool) (c : Char) (l : List Char)
    (hc : p c = false) : (c :: l).dropWhile p = c :: l := by
  simp [List.dropWhile_cons, hc]

theorem revDrop_cons_neg (p : Char → Bool) (c : Char) (l : List Char)
    (hc : p c = false) :
    ((c :: l).reverse.dropWhile p).reverse =
      c :: (l.reverse.dropWhile p).reverse := by
  rw [show (c :: l).reverse = l.reverse ++ [c] from by simp]
  rw [dropWhile_append_char]
  by_cases h2 : l.reverse.dropWhile p = []
  · simp [h2, List.dropWhile_cons, hc]
  · rw [if_neg h2]
    simp

theorem jloads_backtick (l : List Char) : jloads (backtickChar :: l) = none := by
  unfold jloads jsonStrip
  rw [dropWhile_cons_neg _ _ _ (by decide), revDrop_cons_neg _ _ _ (by decide)]
  unfold jloadsCore
  rw [parseVal_backtick]

/-! ## Whitespace and consumption lemmas for the JSON parser -/

theorem dropWhile_head_not (p : Char → Bool) :
    ∀ (u : List Char) (c : Char) (w : List Char),
      u.dropWhile p = c :: w → p c = false := by
  intro u
  induction u with
  | nil => intro c w h; simp at h
  | cons x t ih =>
    intro c w h
    by_cases hx : p x = true
    · rw [List.dropWhile_cons, if_pos hx] at h
      exact ih c w h
    · rw [List.dropWhile_cons, if_neg hx] at h
      injection h with h1 _
      rw [← h1]
      simpa using hx

theorem dropWhile_eq_nil_of_all (p : Char → Bool) (u : List Char)
    (hu : ∀ y ∈ u, p y = true) : u.dropWhile p = [] := by
  induction u with
  | nil => rfl
  | cons x t ih =>
    rw [List.dropWhile_cons, if_pos (hu x (by simp))]
    exact ih (fun y hy => hu y (by simp [hy]))

theorem dropWhile_all_append (p : Char → Bool) (u s : List Char)
    (hu : ∀ y ∈ u, p y = true) : (u ++ s).dropWhile p = s.dropWhile p := by
  rw [dropWhile_append_char, dropWhile_eq_nil_of_all p u hu]
  simp

theorem revDrop_decomp (p : Char → Bool) (x : List Char) :
    ∃ w, x = (x.reverse.dropWhile p).reverse ++ w ∧ ∀ y ∈ w, p y = true := by
  refine ⟨(x.reverse.takeWhile p).reverse, ?_, ?_⟩
  · have h := congrArg List.reverse
      (List.takeWhile_append_dropWhile p x.reverse)
    simp only [List.reverse_append, List.reverse_reverse] at h
    exact h.symm
  · intro y hy
    exact List.mem_takeWhile_imp (List.mem_reverse.mp hy)

theorem skipWs_cons_neg (c : Char) (r : List Char) (hc : isJsonWs c = false) :
    skipWs (c :: r) = c :: r := by
  rw [skipWs, if_neg (by simp [hc])]

theorem skipWs_decomp (l : List Char) :
    ∃ w, l = w ++ skipWs l ∧ ∀ y ∈ w, isJsonWs y = true := by
  induction l with
  | nil => exact ⟨[], rfl, by simp⟩
  | cons c t ih =>
    by_cases hc : isJsonWs c = true
    · obtain ⟨w, hw, hww⟩ := ih
      refine ⟨c :: w, ?_, ?_⟩
      · rw [skipWs, if_pos hc]
        simpa using hw
      · intro y hy
        rcases List.mem_cons.mp hy with rfl | hy2
        · exact hc
        · exact hww y hy2
    · refine ⟨[], ?_, by simp⟩
      rw [skipWs, if_neg hc]
      simp

theorem skipWs_all (r : List Char) (h : skipWs r = []) :
    ∀ y ∈ r, isJsonWs y = true := by
  induction r with
  | nil => simp
  | cons c t ih =>
    intro y hy
    by_cases hc : isJsonWs c = true
    · rw [skipWs, if_pos hc] at h
      rcases List.mem_cons.mp hy with rfl | hy2
      · exact hc
      · exact ih h y hy2
    · rw [skipWs, if_neg hc] at h
      simp at h

theorem dropWhile_congr (J : List Char) (h0 : Char) (tJ : List Char)
    (hJ : J.dropWhile isJsonWs = h0 :: tJ) (h0p : isPyWs h0 = false) :
    J.dropWhile isPyWs = h0 :: tJ := by
  induction J with
  | nil => simp at hJ
  | cons c t ih =>
    by_cases hc : isJsonWs c = true
    · have hcp : isPyWs c = true := by simp [isPyWs, hc]
      rw [List.dropWhile_cons, if_pos hc] at hJ
      rw [List.dropWhile_cons, if_pos hcp]
      exact ih hJ
    · rw [List.dropWhile_cons, if_neg hc] at hJ
      injection hJ with h1 h2
      subst h1
      rw [List.dropWhile_cons, if_neg (by simp [h0p])]
      rw [h2]

theorem isDigit_not_ws (z : Char) (hz : z.isDigit = true) : isPyWs z = false := by
  rcases hb : isPyWs z with _ | _
  · rfl
  · exfalso
    simp only [isPyWs, isJsonWs, Bool.or_eq_true, decide_eq_true_eq] at hb
    rcases hb with ((((rfl | rfl) | rfl) | rfl) | rfl) | rfl <;>
      exact absurd hz (by decide)

/-- The parser consumed a non-empty segment of `l`, ending in a
non-whitespace token character, leaving `r`. -/
def consumedOK (l r : List Char) : Prop :=
  ∃ c z, l = c ++ [z] ++ r ∧ isPyWs z = false

theorem consumedOK_single (pre : List Char) (z : Char) (r l : List Char)
    (hl : l = pre ++ z :: r) (hz : isPyWs z = false) : consumedOK l r :=
  ⟨pre, z, by simp [hl], hz⟩

theorem consumedOK_prepend (w l r : List Char) (h : consumedOK l r) :
    consumedOK (w ++ l) r := by
  obtain ⟨c, z, hd, hz⟩ := h
  exact ⟨w ++ c, z, by simp [hd], hz⟩

theorem consumedOK_congr (l l2 r : List Char) (h : consumedOK l2 r)
    (he : l = l2) : consumedOK l r := he ▸ h

theorem consumedOK_glue (l mid r : List Char) (h1 : consumedOK l mid)
    (h2 : consumedOK mid r) : consumedOK l r := by
  obtain ⟨c1, z1, hd1, hz1⟩ := h1
  obtain ⟨c2, z2, hd2, hz2⟩ := h2
  exact ⟨c1 ++ [z1] ++ c2, z2, by simp [hd1, hd2], hz2⟩

theorem quote_decomp_cons (a : Char) (t r : List Char)
    (h : ∃ c, t = c ++ '"' :: r) : ∃ c, a :: t = c ++ '"' :: r := by
  obtain ⟨c, hc⟩ := h
  exact ⟨a :: c, by simp [hc]⟩

theorem parseStrAux_consumed :
    ∀ (f : Nat) (acc inp s r : List Char),
      parseStrAux f acc inp = some (s, r) → ∃ c, inp = c ++ '"' :: r := by
  intro f
  induction f with
  | zero => intro acc inp s r h; simp [parseStrAux] at h
  | succ f ih =>
    intro acc inp s r h
    rcases inp with _ | ⟨c, rr⟩
    · simp [parseStrAux] at h
    · simp only [parseStrAux] at h
      split at h
      next h1 =>
        subst h1
        injection h with h2
        injection h2 with _ h3
        exact ⟨[], by simp [h3]⟩
      next h1 =>
        split at h
        next h2 =>
          split at h
          · exact absurd h (by simp)
          · split at h
            next h3 =>
              split at h
              all_goals try (exfalso; exact Option.noConfusion h)
              split at h
              all_goals try (exfalso; exact Option.noConfusion h)
              exact quote_decomp_cons _ _ _ (quote_decomp_cons _ _ _
                (quote_decomp_cons _ _ _ (quote_decomp_cons _ _ _
                (quote_decomp_cons _ _ _ (quote_decomp_cons _ _ _
                (ih _ _ _ _ h))))))
            next h3 =>
              split at h
              all_goals try (exfalso; exact Option.noConfusion h)
              exact quote_decomp_cons _ _ _ (quote_decomp_cons _ _ _
                (ih _ _ _ _ h))
        next h2 =>
          split at h
          next h3 => exact absurd h (by simp)
          next h3 => exact quote_decomp_cons _ _ _ (ih _ _ _ _ h)

theorem takeWhile_last_digit (u : List Char) (hne : u.takeWhile Char.isDigit ≠ []) :
    ∃ pre z, u.takeWhile Char.isDigit = pre ++ [z] ∧ isPyWs z = false := by
  rcases List.eq_nil_or_concat (u.takeWhile Char.isDigit) with h0 | ⟨pre, z, hz⟩
  · exact absurd h0 hne
  · rw [List.concat_eq_append] at hz
    refine ⟨pre, z, hz, isDigit_not_ws z ?_⟩
    exact List.mem_takeWhile_imp (by rw [hz]; simp)

theorem parseNumBody_consumed (neg : Bool) (l1 : List Char) (v : JVal)
    (r : List Char) (h : parseNumBody neg l1 = some (v, r)) :
    consumedOK l1 r := by
  unfold parseNumBody at h
  by_cases hds : l1.takeWhile Char.isDigit = []
  · rw [if_pos hds] at h
    exact absurd h (by simp)
  · rw [if_neg hds] at h
    obtain ⟨pre, z, hpz, hzw⟩ := takeWhile_last_digit l1 hds
    have hsplit : l1 = l1.takeWhile Char.isDigit ++ l1.dropWhile Char.isDigit :=
      (List.takeWhile_append_dropWhile _ _).symm
    by_cases hdot : (l1.dropWhile Char.isDigit).head? = some '.'
    · rw [if_pos hdot] at h
      by_cases hfs : (l1.dropWhile Char.isDigit).tail.takeWhile Char.isDigit = []
      · rw [if_pos hfs] at h
        exact absurd h (by simp)
      · rw [if_neg hfs] at h
        injection h with h2
        injection h2 with _ h3
        obtain ⟨pre2, z2, hpz2, hzw2⟩ :=
          takeWhile_last_digit ((l1.dropWhile Char.isDigit).tail) hfs
        have hd1 : l1.dropWhile Char.isDigit =
            '.' :: (l1.dropWhile Char.isDigit).tail := by
          rcases hdd : l1.dropWhile Char.isDigit with _ | ⟨a, t⟩
          · rw [hdd] at hdot; simp at hdot
          · rw [hdd] at hdot
            simp only [List.head?_cons, Option.some.injEq] at hdot
            rw [hdot]
            rfl
        have hsplit2 : (l1.dropWhile Char.isDigit).tail =
            (pre2 ++ [z2]) ++
              ((l1.dropWhile Char.isDigit).tail).dropWhile Char.isDigit := by
          conv_lhs => rw [← List.takeWhile_append_dropWhile Char.isDigit
            ((l1.dropWhile Char.isDigit).tail)]
          rw [hpz2]
        refine consumedOK_single
          (l1.takeWhile Char.isDigit ++ '.' :: pre2) z2 r l1 ?_ hzw2
        conv_lhs => rw [hsplit, hd1, hsplit2]
        rw [← h3]
        simp
    · rw [if_neg hdot] at h
      injection h with h2
      injection h2 with _ h3
      refine consumedOK_single pre z r l1 ?_ hzw
      conv_lhs => rw [hsplit, hpz]
      rw [← h3]
      simp

theorem parseNum_consumed (l : List Char) (v : JVal) (r : List Char)
    (h : parseNum l = some (v, r)) : consumedOK l r := by
  unfold parseNum at h
  by_cases hng : l.head? = some '-'
  · rw [if_pos hng] at h
    rcases l with _ | ⟨c0, l0⟩
    · simp at hng
    · have hc0 : c0 = '-' := by simpa using hng
      subst hc0
      simp only [List.tail_cons] at h
      exact consumedOK_prepend ['-'] l0 r (parseNumBody_consumed _ _ _ _ h)
  · rw [if_neg hng] at h
    exact parseNumBody_consumed _ _ _ _ h

theorem parser_consumed (f : Nat) :
    (∀ l v r, parseVal f l = some (v, r) → consumedOK l r) ∧
    (∀ l v r, parseArrStart f l = some (v, r) → consumedOK l r) ∧
    (∀ l acc v r, parseArrElems f l acc = some (v, r) → consumedOK l r) ∧
    (∀ l v r, parseObjStart f l = some (v, r) → consumedOK l r) ∧
    (∀ l acc v r, parseObjElems f l acc = some (v, r) → consumedOK l r) := by
  induction f with
  | zero =>
    refine ⟨?_, ?_, ?_, ?_, ?_⟩ <;> intro l <;> intros <;>
      simp [parseVal, parseArrStart, parseArrElems, parseObjStart,
        parseObjElems] at *
  | succ f ih =>
    obtain ⟨ihV, ihA, ihE, ihO, ihQ⟩ := ih
    refine ⟨?_, ?_, ?_, ?_, ?_⟩
    · -- parseVal
      intro l v r h
      simp only [parseVal] at h
      obtain ⟨w, hwl, hww⟩ := skipWs_decomp l
      rcases hsw : skipWs l with _ | ⟨d, rest⟩
      · rw [hsw] at h; simp at h
      · rw [hsw] at hwl
        simp only [hsw] at h
        split at h
        next h1 =>
          rcases hps : parseStrAux (rest.length + 1) [] rest with _ | ⟨s0, rest2⟩
          · rw [hps] at h; simp at h
          · simp only [hps] at h
            injection h with h2
            injection h2 with _ h3
            obtain ⟨cS, hcs⟩ := parseStrAux_consumed _ _ _ _ _ hps
            subst h1
            refine consumedOK_single (w ++ '"' :: cS) '"' r l ?_ (by decide)
            rw [hwl, hcs, ← h3]
            simp
        next h1 =>
          split at h
          next h2 =>
            exact consumedOK_congr l ((w ++ [d]) ++ rest) r
              (consumedOK_prepend (w ++ [d]) rest r (ihA rest v r h))
              (by rw [hwl]; simp)
          next h2 =>
            split at h
            next h3 =>
              exact consumedOK_congr l ((w ++ [d]) ++ rest) r
                (consumedOK_prepend (w ++ [d]) rest r (ihO rest v r h))
                (by rw [hwl]; simp)
            next h3 =>
              split at h
              next h4 =>
                exact consumedOK_congr l (w ++ (d :: rest)) r
                  (consumedOK_prepend w (d :: rest) r (parseNum_consumed _ _ _ h))
                  hwl
              next h4 =>
                split at h
                next h5 =>
                  obtain ⟨u, hu⟩ := (isPrefixOf_iff_ex _ _).mp h5
                  injection h with h6
                  injection h6 with _ h7
                  have hdrop : (d :: rest).drop 4 = u := by
                    rw [hu]
                    exact List.drop_left ['n', 'u', 'l', 'l'] u
                  refine consumedOK_single (w ++ ['n', 'u', 'l']) 'l' r l ?_
                    (by decide)
                  rw [hwl, hu, ← h7, hdrop]
                  simp
                next h5 =>
                  split at h
                  next h6 =>
                    obtain ⟨u, hu⟩ := (isPrefixOf_iff_ex _ _).mp h6
                    injection h with h7
                    injection h7 with _ h8
                    have hdrop : (d :: rest).drop 4 = u := by
                      rw [hu]
                      exact List.drop_left ['t', 'r', 'u', 'e'] u
                    refine consumedOK_single (w ++ ['t', 'r', 'u']) 'e' r l ?_
                      (by decide)
                    rw [hwl, hu, ← h8, hdrop]
                    simp
                  next h6 =>
                    split at h
                    next h7 =>
                      obtain ⟨u, hu⟩ := (isPrefixOf_iff_ex _ _).mp h7
                      injection h with h8
                      injection h8 with _ h9
                      have hdrop : (d :: rest).drop 5 = u := by
                        rw [hu]
                        exact List.drop_left ['f', 'a', 'l', 's', 'e'] u
                      refine consumedOK_single (w ++ ['f', 'a', 'l', 's']) 'e' r l
                        ?_ (by decide)
                      rw [hwl, hu, ← h9, hdrop]
                      simp
                    next h7 => simp at h
    · -- parseArrStart
      intro l v r h
      simp only [parseArrStart] at h
      obtain ⟨w, hwl, hww⟩ := skipWs_decomp l
      rcases hsw : skipWs l with _ | ⟨d, rest⟩
      · rw [hsw] at h; simp at h
      · rw [hsw] at hwl
        simp only [hsw] at h
        split at h
        next h1 =>
          injection h with h2
          injection h2 with _ h3
          subst h1
          refine consumedOK_single w ']' r l ?_ (by decide)
          rw [hwl, h3]
        next h1 =>
          exact consumedOK_congr l (w ++ (d :: rest)) r
            (consumedOK_prepend w _ r (ihE (d :: rest) [] v r h)) hwl
    · -- parseArrElems
      intro l acc v r h
      simp only [parseArrElems] at h
      rcases hpv : parseVal f l with _ | ⟨v1, rest1⟩
      · rw [hpv] at h; simp at h
      · simp only [hpv] at h
        have hC1 : consumedOK l rest1 := ihV l v1 rest1 hpv
        obtain ⟨w2, hw2, hww2⟩ := skipWs_decomp rest1
        rcases hsw2 : skipWs rest1 with _ | ⟨d2, r2⟩
        · rw [hsw2] at h; simp at h
        · rw [hsw2] at hw2
          simp only [hsw2] at h
          split at h
          next h1 =>
            have hC2 : consumedOK rest1 r2 :=
              consumedOK_single w2 d2 r2 rest1 hw2 (by rw [h1]; decide)
            exact consumedOK_glue l r2 r (consumedOK_glue l rest1 r2 hC1 hC2)
              (ihE r2 (v1 :: acc) v r h)
          next h1 =>
            split at h
            next h2 =>
              injection h with h3
              injection h3 with _ h4
              have hC2 : consumedOK rest1 r :=
                consumedOK_single w2 d2 r rest1 (by rw [hw2, h4])
                  (by rw [h2]; decide)
              exact consumedOK_glue l rest1 r hC1 hC2
            next h2 => simp at h
    · -- parseObjStart
      intro l v r h
      simp only [parseObjStart] at h
      obtain ⟨w, hwl, hww⟩ := skipWs_decomp l
      rcases hsw : skipWs l with _ | ⟨d, rest⟩
      · rw [hsw] at h; simp at h
      · rw [hsw] at hwl
        simp only [hsw] at h
        split at h
        next h1 =>
          injection h with h2
          injection h2 with _ h3
          refine consumedOK_single w d r l ?_ (by rw [h1]; decide)
          rw [hwl, h3]
        next h1 =>
          exact consumedOK_congr l (w ++ (d :: rest)) r
            (consumedOK_prepend w _ r (ihQ (d :: rest) [] v r h)) hwl
    · -- parseObjElems
      intro l acc v r h
      simp only [parseObjElems] at h
      obtain ⟨w, hwl, hww⟩ := skipWs_decomp l
      rcases hsw : skipWs l with _ | ⟨d, rk⟩
      · rw [hsw] at h; simp at h
      · rw [hsw] at hwl
        simp only [hsw] at h
        split at h
        next h1 =>
          rcases hps : parseStrAux (rk.length + 1) [] rk with _ | ⟨k, restk⟩
          · rw [hps] at h; simp at h
          · simp only [hps] at h
            obtain ⟨cS, hcs⟩ := parseStrAux_consumed _ _ _ _ _ hps
            have hCk : consumedOK l restk := by
              refine consumedOK_single (w ++ d :: cS) '"' restk l ?_ (by decide)
              rw [hwl, hcs]
              simp
            obtain ⟨w2, hw2, hww2⟩ := skipWs_decomp restk
            rcases hsw2 : skipWs restk with _ | ⟨d2, r2⟩
            · rw [hsw2] at h; simp at h
            · rw [hsw2] at hw2
              simp only [hsw2] at h
              split at h
              next h2 =>
                rcases hpv : parseVal f r2 with _ | ⟨v1, rest2⟩
                · rw [hpv] at h; simp at h
                · simp only [hpv] at h
                  have hC2 : consumedOK restk r2 :=
                    consumedOK_single w2 d2 r2 restk hw2 (by rw [h2]; decide)
                  have hCv : consumedOK r2 rest2 := ihV r2 v1 rest2 hpv
                  obtain ⟨w3, hw3, hww3⟩ := skipWs_decomp rest2
                  rcases hsw3 : skipWs rest2 with _ | ⟨d3, r3⟩
                  · rw [hsw3] at h; simp at h
                  · rw [hsw3] at hw3
                    simp only [hsw3] at h
                    split at h
                    next h3 =>
                      have hC3 : consumedOK rest2 r3 :=
                        consumedOK_single w3 d3 r3 rest2 hw3 (by rw [h3]; decide)
                      exact consumedOK_glue l r3 r
                        (consumedOK_glue l rest2 r3
                          (consumedOK_glue l r2 rest2
                            (consumedOK_glue l restk r2 hCk hC2) hCv) hC3)
                        (ihQ r3 _ v r h)
                    next h3 =>
                      split at h
                      next h4 =>
                        injection h with h5
                        injection h5 with _ h6
                        have hC3 : consumedOK rest2 r :=
                          consumedOK_single w3 d3 r rest2 (by rw [hw3, h6])
                            (by rw [h4]; decide)
                        exact consumedOK_glue l rest2 r
                          (consumedOK_glue l r2 rest2
                            (consumedOK_glue l restk r2 hCk hC2) hCv) hC3
                      next h4 => simp at h
              next h2 => simp at h
        next h1 => simp at h

theorem parseVal_first (f : Nat) (l : List Char) (x : JVal × List Char)
    (h : parseVal f l = some x) :
    ∃ d r, skipWs l = d :: r ∧ isPyWs d = false := by
  cases f with
  | zero => simp [parseVal] at h
  | succ f =>
    simp only [parseVal] at h
    rcases hsw : skipWs l with _ | ⟨d, rest⟩
    · rw [hsw] at h; simp at h
    · simp only [hsw] at h
      refine ⟨d, rest, rfl, ?_⟩
      split at h
      next h1 => rw [h1]; decide
      next h1 =>
        split at h
        next h2 => rw [h2]; decide
        next h2 =>
          split at h
          next h3 => rw [h3]; decide
          next h3 =>
            split at h
            next h4 =>
              simp only [Bool.or_eq_true, decide_eq_true_eq] at h4
              rcases h4 with rfl | hd
              · decide
              · exact isDigit_not_ws d hd
            next h4 =>
              split at h
              next h5 =>
                obtain ⟨u, hu⟩ := (isPrefixOf_iff_ex _ _).mp h5
                simp only [List.cons_append, List.nil_append] at hu
                injection hu with hd _
                rw [hd]; decide
              next h5 =>
                split at h
                next h6 =>
                  obtain ⟨u, hu⟩ := (isPrefixOf_iff_ex _ _).mp h6
                  simp only [List.cons_append, List.nil_append] at hu
                  injection hu with hd _
                  rw [hd]; decide
                next h6 =>
                  split at h
                  next h7 =>
                    obtain ⟨u, hu⟩ := (isPrefixOf_iff_ex _ _).mp h7
                    simp only [List.cons_append, List.nil_append] at hu
                    injection hu with hd _
                    rw [hd]; decide
                  next h7 => simp at h

theorem strip_ends_id (X : List Char) (c : List Char) (z h0 : Char)
    (tail : List Char) (h1 : X = h0 :: tail) (h2 : X = c ++ [z])
    (hh : isJsonWs h0 = false) (hz : isJsonWs z = false) : jsonStrip X = X := by
  unfold jsonStrip
  rw [show X.dropWhile isJsonWs = X from by
    rw [h1]; exact dropWhile_cons_neg _ _ _ hh]
  rw [show X.reverse.dropWhile isJsonWs = X.reverse from by
    rw [h2, show (c ++ [z]).reverse = z :: c.reverse from by simp]
    exact dropWhile_cons_neg _ _ _ hz]
  simp

theorem jloads_pyStrip (J : List Char) (v : JVal) (h : jloads J = some v) :
    jloads (pyStrip J) = some v := by
  unfold jloads at h
  have hne : jsonStrip J ≠ [] := by
    intro h0
    rw [h0] at h
    rw [show jloadsCore ([] : List Char) = none from rfl] at h
    exact Option.noConfusion h
  unfold jloadsCore at h
  rcases hpv : parseVal (4 * (jsonStrip J).length + 8) (jsonStrip J)
    with _ | ⟨v1, rest⟩
  · rw [hpv] at h
    exact absurd h (by simp)
  · simp only [hpv] at h
    by_cases hws : skipWs rest = []
    case neg =>
      rw [if_neg hws] at h
      exact absurd h (by simp)
    rw [if_pos hws] at h
    injection h with hv
    subst hv
    have hrestws := skipWs_all rest hws
    obtain ⟨c, z, hdec, hzpy⟩ := (parser_consumed _).1 _ _ _ hpv
    -- the stripped text carries no trailing JSON whitespace
    have hlast : ∃ q y, jsonStrip J = q ++ [y] ∧ isJsonWs y = false := by
      rcases hu : (J.dropWhile isJsonWs).reverse.dropWhile isJsonWs
        with _ | ⟨y, ys⟩
      · exfalso
        apply hne
        unfold jsonStrip
        rw [hu]
        rfl
      · refine ⟨ys.reverse, y, ?_, dropWhile_head_not _ _ _ _ hu⟩
        unfold jsonStrip
        rw [hu]
        simp
    obtain ⟨q, y, hq, hyj⟩ := hlast
    have hrest_nil : rest = [] := by
      rcases List.eq_nil_or_concat rest with h0 | ⟨rr, e, hre⟩
      · exact h0
      · exfalso
        rw [List.concat_eq_append] at hre
        have he : isJsonWs e = true := hrestws e (by rw [hre]; simp)
        have h2 : jsonStrip J = (c ++ [z] ++ rr) ++ [e] := by
          rw [hdec, hre]
          simp
        have hye : y = e := by
          have h3 : q ++ [y] = (c ++ [z] ++ rr) ++ [e] := hq.symm.trans h2
          have h4 := congrArg List.reverse h3
          simp at h4
          exact h4.1
        rw [hye, he] at hyj
        exact Bool.noConfusion hyj
    rw [hrest_nil] at hdec hpv hws
    have hdec2 : jsonStrip J = c ++ [z] := by simpa using hdec
    -- the stripped text starts with a non-whitespace dispatch character
    have hD : ∃ h0 tD, J.dropWhile isJsonWs = h0 :: tD := by
      rcases hD0 : J.dropWhile isJsonWs with _ | ⟨h0, tD⟩
      · exfalso
        apply hne
        unfold jsonStrip
        rw [hD0]
        rfl
      · exact ⟨h0, tD, rfl⟩
    obtain ⟨h0, tD, hD⟩ := hD
    have hh0j : isJsonWs h0 = false := dropWhile_head_not _ _ _ _ hD
    obtain ⟨wD, hwD, hwDall⟩ := revDrop_decomp isJsonWs (J.dropWhile isJsonWs)
    have hsJ : jsonStrip J ++ wD = h0 :: tD := by
      rw [← hD]
      exact (show J.dropWhile isJsonWs = jsonStrip J ++ wD from hwD).symm
    have hhead : ∃ tail, jsonStrip J = h0 :: tail := by
      rcases hsj0 : jsonStrip J with _ | ⟨a, t0⟩
      · exact absurd hsj0 hne
      · rw [hsj0] at hsJ
        rw [List.cons_append] at hsJ
        injection hsJ with ha _
        subst ha
        exact ⟨t0, rfl⟩
    obtain ⟨tail, hhead⟩ := hhead
    have hskip : skipWs (jsonStrip J) = jsonStrip J := by
      rw [hhead]
      exact skipWs_cons_neg _ _ hh0j
    obtain ⟨d, r0, hdr, hdpy⟩ := parseVal_first _ _ _ hpv
    rw [hskip, hhead] at hdr
    injection hdr with hd0 _
    have hh0py : isPyWs h0 = false := by
      rw [hd0]
      exact hdpy
    have hfrontP : J.dropWhile isPyWs = h0 :: tD := dropWhile_congr J h0 tD hD hh0py
    have hzj : isJsonWs z = false := by
      rcases hb : isJsonWs z with _ | _
      · rfl
      · exact absurd (by simp [isPyWs, hb] : isPyWs z = true) (by simp [hzpy])
    have hPy : pyStrip J = jsonStrip J := by
      unfold pyStrip
      rw [hfrontP]
      rw [show h0 :: tD = (c ++ [z]) ++ wD from by rw [← hsJ, hdec2]]
      rw [show ((c ++ [z]) ++ wD).reverse = wD.reverse ++ (z :: c.reverse) from
        by simp]
      rw [dropWhile_all_append isPyWs wD.reverse _ (fun y2 hy2 => by
        have hy3 := hwDall y2 (List.mem_reverse.mp hy2)
        simp [isPyWs, hy3])]
      rw [dropWhile_cons_neg _ _ _ hzpy]
      rw [hdec2]
      simp
    unfold jloads
    rw [hPy, strip_ends_id (jsonStrip J) c z h0 tail hhead hdec2 hh0j hzj]
    unfold jloadsCore
    simp only [hpv]
    rw [if_pos hws]

theorem parse_llm_json_of_loads (l : List Char) (v : JVal)
    (h : jloads l = some v) : parse_llm_json l = some v := by
  unfold parse_llm_json
  rw [h]

theorem parse_llm_json_of_loads_fail (l : List Char) (h : jloads l = none) :
    parse_llm_json l =
      match (pySplit fenceJson l).get? 1 with
      | none => none
      | some part => jloads (pyStrip ((pySplit fence3 part).headI)) := by
  unfold parse_llm_json
  rw [h]

/-- The raw JSON reply used to refute the parse-equivalence claim: a
well-formed Intent object whose query text contains the fence marker. -/
def c7raw : List Char :=
  "\x7b\"type\": \"CONVERSATION\", \"query\": \"\x60\x60\x60\"\x7d".data

/-- The Intent value that `c7raw` decodes to. -/
def c7val : JVal :=
  .jobj [("type".data, .jstr "CONVERSATION".data), ("query".data, .jstr fence3)]

/-- C7 counterexample: `_parse_llm_json` does not recover the same value
from the raw reply and from its fence-wrapped form when the JSON text
itself contains the fence marker: the raw form decodes to the Intent
object, while the wrapped form cuts the extracted block at the inner
fence and yields `None`. -/
theorem C7_parse_equiv_counterexample :
    parse_llm_json c7raw = some c7val ∧
    parse_llm_json (fenceWrap c7raw) = none ∧
    parse_llm_json (fenceWrap c7raw) ≠ parse_llm_json c7raw := by
  refine ⟨rfl, rfl, ?_⟩
  rw [show parse_llm_json (fenceWrap c7raw) = none from rfl,
      show parse_llm_json c7raw = some c7val from rfl]
  simp

/-- C7 (amended): for every well-formed structured reply whose text
contains no fence marker (three backticks), `_parse_llm_json` returns
the same decoded value whether the reply is delivered raw or wrapped in
a markdown code fence labeled `json`. -/
theorem C7_parse_equiv_amended (J : List Char) (v : JVal)
    (h1 : jloads J = some v)
    (h2 : occursIn fence3 J = false) :
    parse_llm_json (fenceWrap J) = parse_llm_json J ∧
    parse_llm_json (fenceWrap J) = some v := by
  have hraw : parse_llm_json J = some v := parse_llm_json_of_loads J v h1
  have hcons : fenceWrap J = backtickChar :: (backtickChar :: backtickChar ::
      'j' :: 's' :: 'o' :: 'n' :: ('\n' :: (J ++ '\n' :: fence3))) := by
    simp [fenceWrap, fenceJson, fence3]
  have hl : jloads (fenceWrap J) = none := by
    rw [hcons, jloads_backtick]
  have hwrap : parse_llm_json (fenceWrap J) = some v := by
    rw [parse_llm_json_of_loads_fail _ hl, pySplit_fenceWrap J h2]
    show jloads (pyStrip ((pySplit fence3 ('\n' :: (J ++ '\n' :: fence3))).headI)) =
      some v
    rw [pySplit_rest J h2]
    show jloads (pyStrip ('\n' :: (J ++ ['\n']))) = some v
    rw [pyStrip_wrap]
    exact jloads_pyStrip J v h1
  exact ⟨hwrap.trans hraw.symm, hwrap⟩

/-- C7 witness: the amended equivalence at the concrete
whitespace-padded reply consisting of the literal null. -/
theorem C7_parse_equiv_amended_witness :
    parse_llm_json (fenceWrap " null ".data) = parse_llm_json " null ".data :=
  (C7_parse_equiv_amended " null ".data .jnull rfl rfl).1

/-! ## Helper lemmas about the orchestrator state -/

theorem run_last_code_state (execO : String → ExecEnv → ExecOutcome)
    (s : AsstState) : (run_last_code execO s).1 = s := by
  rcases hc : s.last_generated_code with _ | code
  · simp [run_last_code, hc]
  · rcases hr : run_code execO code with e | out <;>
      simp [run_last_code, hc, hr]

theorem head?_append_of_some {α : Type} (a : α) (l t : List α)
    (h : l.head? = some a) : (l ++ t).head? = some a := by
  rcases l with _ | ⟨b, l2⟩
  · simp at h
  · simpa using h

theorem toolBranch_hist (s : AsstState) (kvs : List (List Char × JVal))
    (sendText : Option JVal → Option String)
    (toolExec : Option JVal → JVal → String) :
    ∃ tl, (toolBranch s kvs sendText toolExec).1.chat_history =
      s.chat_history ++ tl :=
  ⟨_, by simp only [toolBranch, List.append_assoc]; rfl⟩

theorem directBranch_hist (s : AsstState) (kvs : List (List Char × JVal))
    (sendText : Option JVal → Option String) (isCode : Bool) :
    ∃ tl, (directBranch s kvs sendText isCode).1.chat_history =
      s.chat_history ++ tl := by
  unfold directBranch
  cases isCode with
  | false => exact ⟨_, rfl⟩
  | true =>
    rcases hst : sendText (pyGet kvs keyQuery) with _ | text
    · exact ⟨_, by simp only [hst]; rfl⟩
    · exact ⟨_, by simp only [hst]; rfl⟩

theorem classifyDispatch_hist (s : AsstState) (kvs : List (List Char × JVal))
    (sendText : Option JVal → Option String)
    (toolExec : Option JVal → JVal → String) :
    ∃ tl, (classifyDispatch s kvs sendText toolExec).1.chat_history =
      s.chat_history ++ tl := by
  unfold classifyDispatch
  rcases hg : pyGet kvs keyType with _ | tv
  · exact ⟨[], by simp⟩
  · by_cases htv : pyTruthy tv = false
    · exact ⟨[], by simp [htv]⟩
    · by_cases htool : isStrEq tv tagToolUse = true
      · simpa [htv, htool] using toolBranch_hist s kvs sendText toolExec
      · simpa [htv, htool] using
          directBranch_hist s kvs sendText (isStrEq tv tagCode)

theorem loopIteration_hist (s : AsstState) (response : Option JVal)
    (sendText : Option JVal → Option String)
    (toolExec : Option JVal → JVal → String) :
    ∃ tl, (loopIteration s response sendText toolExec).1.chat_history =
      s.chat_history ++ tl := by
  rcases response with _ | r
  · exact ⟨[], by simp [loopIteration]⟩
  · unfold loopIteration
    by_cases hp : pyTruthy r = false
    · exact ⟨[], by simp [hp]⟩
    · cases r with
      | jobj kvs => simpa [hp] using classifyDispatch_hist s kvs sendText toolExec
      | jnull => exact ⟨[], by simp [hp]⟩
      | jbool b => exact ⟨[], by simp [hp]⟩
      | jnum m k => exact ⟨[], by simp [hp]⟩
      | jstr t => exact ⟨[], by simp [hp]⟩
      | jarr es => exact ⟨[], by simp [hp]⟩

/-- C1: transcript invariant.  In every reachable state of the
assistant the transcript is non-empty and its first entry is the system
turn fixed at construction; each operation (construction, loading
history, main-loop iterations, the `run code` command, and the
confirmed or declined `clear history` reset) preserves this. -/
theorem C1_transcript_invariant (sys : Turn) (s : AsstState)
    (h : Reachable sys s) :
    s.chat_history ≠ [] ∧ s.chat_history.head? = some sys := by
  induction h with
  | init => exact ⟨by simp [initState], by simp [initState]⟩
  | load ts hr ih =>
    obtain ⟨hne, hh⟩ := ih
    refine ⟨?_, head?_append_of_some _ _ _ hh⟩
    simp only [load_history]
    intro hc
    rw [List.append_eq_nil] at hc
    exact hne hc.1
  | iter response sendText toolExec hr ih =>
    obtain ⟨hne, hh⟩ := ih
    obtain ⟨tl, htl⟩ := loopIteration_hist _ response sendText toolExec
    rw [htl]
    refine ⟨?_, head?_append_of_some _ _ _ hh⟩
    intro hc
    rw [List.append_eq_nil] at hc
    exact hne hc.1
  | runCode execO hr ih =>
    rw [run_last_code_state]
    exact ih
  | @clear s2 confirmed hr ih =>
    obtain ⟨hne, hh⟩ := ih
    cases confirmed with
    | false => simpa [clear_history] using ⟨hne, hh⟩
    | true =>
      rcases hl : s2.chat_history with _ | ⟨a, t⟩
      · exact absurd hl hne
      · rw [hl] at hh
        simp only [List.head?] at hh
        injection hh with ha
        simp [clear_history, hl, ha]

/-- C1 witness: the invariant at the freshly constructed state. -/
theorem C1_transcript_invariant_witness :
    (initState ⟨"system", some "You are Chatty."⟩).chat_history ≠ [] ∧
    (initState ⟨"system", some "You are Chatty."⟩).chat_history.head? =
      some ⟨"system", some "You are Chatty."⟩ :=
  C1_transcript_invariant _ _ Reachable.init

/-- C4: transport retry discipline.  When all three attempts fail at
the transport level, `_send_to_ollama` performs exactly 3 attempts with
backoff sleeps of `2 ^ attempt` seconds (attempt starting at 0, hence
non-decreasing), then returns `None` together with the user-visible
backend-unavailable message instead of raising; the result never
depends on outcomes beyond the third attempt. -/
theorem C4_transport_retry (outcomes : Nat → Attempt) (formatJson : Bool)
    (h : ∀ i, i < 3 → outcomes i = .netErr) :
    send_to_ollama outcomes formatJson = (none, [2 ^ 0, 2 ^ 1, 2 ^ 2], true) ∧
    List.Chain' (· ≤ ·) [2 ^ 0, 2 ^ 1, 2 ^ 2] ∧
    (∀ outcomes2 : Nat → Attempt, (∀ i, i < 3 → outcomes2 i = outcomes i) →
      send_to_ollama outcomes2 formatJson = send_to_ollama outcomes formatJson) := by
  refine ⟨?_, by norm_num [List.chain'_cons], ?_⟩
  · simp [send_to_ollama, sendAux, h 0 (by omega), h 1 (by omega), h 2 (by omega)]
  · intro outcomes2 ha
    simp [send_to_ollama, sendAux, ha 0 (by omega), ha 1 (by omega),
      ha 2 (by omega)]

/-- C4 witness: three simulated connection failures. -/
theorem C4_transport_retry_witness :
    send_to_ollama (fun _ => Attempt.netErr) true =
      (none, [2 ^ 0, 2 ^ 1, 2 ^ 2], true) :=
  (C4_transport_retry (fun _ => Attempt.netErr) true (fun _ _ => rfl)).1

/-- C9: file write validation.  A `FileTool.run` call with action
`write` whose `content` argument is absent (or JSON `null`, binding to
Python `None`) returns the validation-error text and leaves the
filesystem untouched. -/
theorem C9_file_write_validation (w : World) (kvs : List (List Char × JVal))
    (hkeys : kvs.any (fun p =>
      p.1 ≠ keyAction ∧ p.1 ≠ keyFilename ∧ p.1 ≠ keyContent) = false)
    (hact : pyGet kvs keyAction = some (.jstr "write".data))
    (hfn : ∃ fn, pyGet kvs keyFilename = some fn)
    (hcontent : pyGet kvs keyContent = none ∨
      pyGet kvs keyContent = some .jnull) :
    fileToolRun w kvs =
      (.ok "Error: 'content' argument is required for 'write' action.", w) := by
  obtain ⟨fn, hfn⟩ := hfn
  have h1 : isStrEq (JVal.jstr "write".data) "read".data = false := rfl
  have h2 : isStrEq (JVal.jstr "write".data) "write".data = true := rfl
  rcases hcontent with hc | hc <;>
  · unfold fileToolRun
    rw [if_neg (by rw [hkeys]; simp)]
    simp only [hact, hfn, h1, h2, hc]
    simp

/-- C9 witness: a write call with no content key. -/
theorem C9_file_write_validation_witness :
    fileToolRun ⟨[("a.txt".data, "old")], .ok []⟩
      [(keyAction, .jstr "write".data), (keyFilename, .jstr "f.txt".data)] =
      (.ok "Error: 'content' argument is required for 'write' action.",
       ⟨[("a.txt".data, "old")], .ok []⟩) :=
  C9_file_write_validation _ _ (by rfl) rfl ⟨_, rfl⟩ (Or.inl rfl)

/-- C10: sandbox run isolation and frame.  The `run code` command never
changes the transcript or `last_generated_code`, and `_run_code` hands
the executed fragment a fresh environment whose local bindings are
empty; two exec oracles that agree on that fresh environment give the
same outcome, so nothing defined by one run is visible to a later
run. -/
theorem C10_run_code_isolation (s : AsstState)
    (execO execO2 : String → ExecEnv → ExecOutcome)
    (h : ∀ code, execO code freshEnv = execO2 code freshEnv) :
    (run_last_code execO s).1 = s ∧
    freshEnv.locals0 = [] ∧
    run_last_code execO s = run_last_code execO2 s := by
  refine ⟨run_last_code_state _ _, rfl, ?_⟩
  unfold run_last_code run_code
  rcases hc : s.last_generated_code with _ | code
  · rfl
  · simp only [h code]

/-- C10 witness: frame at a concrete state and oracle pair. -/
theorem C10_run_code_isolation_witness :
    (run_last_code (fun _ _ => ExecOutcome.ok "out")
      { chat_history := [⟨"system", some "p"⟩],
        last_generated_code := some "print(1)" }).1 =
      { chat_history := [⟨"system", some "p"⟩],
        last_generated_code := some "print(1)" } ∧
    freshEnv.locals0 = [] ∧
    run_last_code (fun _ _ => ExecOutcome.ok "out")
      { chat_history := [⟨"system", some "p"⟩],
        last_generated_code := some "print(1)" } =
    run_last_code (fun _ _ => ExecOutcome.ok "out")
      { chat_history := [⟨"system", some "p"⟩],
        last_generated_code := some "print(1)" } :=
  C10_run_code_isolation _ _ _ (fun _ => rfl)

/-! ## Branch-unfolding lemmas for the loop iteration -/

theorem loopIteration_some (s : AsstState) (r : JVal)
    (sendText : Option JVal → Option String)
    (toolExec : Option JVal → JVal → String) :
    loopIteration s (some r) sendText toolExec =
      (if pyTruthy r = false then (s, .cantProcess)
       else match r with
         | JVal.jobj kvs => classifyDispatch s kvs sendText toolExec
         | _ => (s, .raised "AttributeError")) := rfl

theorem loopIteration_obj (s : AsstState) (kvs : List (List Char × JVal))
    (sendText : Option JVal → Option String)
    (toolExec : Option JVal → JVal → String)
    (hp : pyTruthy (JVal.jobj kvs) = true) :
    loopIteration s (some (.jobj kvs)) sendText toolExec =
      classifyDispatch s kvs sendText toolExec := by
  rw [loopIteration_some, if_neg (by rw [hp]; simp)]

theorem classifyDispatch_code (s : AsstState) (kvs : List (List Char × JVal))
    (sendText : Option JVal → Option String)
    (toolExec : Option JVal → JVal → String)
    (htype : pyGet kvs keyType = some (.jstr tagCode)) :
    classifyDispatch s kvs sendText toolExec =
      directBranch s kvs sendText true := by
  have e1 : pyTruthy (JVal.jstr tagCode) = true := rfl
  have e2 : isStrEq (JVal.jstr tagCode) tagToolUse = false := rfl
  have e3 : isStrEq (JVal.jstr tagCode) tagCode = true := rfl
  unfold classifyDispatch
  simp only [htype, e1, e2, e3]
  simp

theorem classifyDispatch_other (s : AsstState) (kvs : List (List Char × JVal))
    (sendText : Option JVal → Option String)
    (toolExec : Option JVal → JVal → String) (tv : JVal)
    (hg : pyGet kvs keyType = some tv) (htv : pyTruthy tv = true)
    (h1 : isStrEq tv tagToolUse = false) (h2 : isStrEq tv tagCode = false) :
    classifyDispatch s kvs sendText toolExec =
      directBranch s kvs sendText false := by
  unfold classifyDispatch
  simp only [hg, htv, h1, h2]
  simp

theorem directBranch_code_some (s : AsstState) (kvs : List (List Char × JVal))
    (sendText : Option JVal → Option String) (text : String)
    (hsend : sendText (pyGet kvs keyQuery) = some text) :
    directBranch s kvs sendText true =
      ({ s with
          chat_history := s.chat_history ++ [Turn.mk "assistant" (some text)],
          last_generated_code := (extract_code text.data).map String.mk },
       .directFlow true (some text)) := by
  unfold directBranch
  simp only [hsend]
  rfl

theorem directBranch_conv (s : AsstState) (kvs : List (List Char × JVal))
    (sendText : Option JVal → Option String) :
    directBranch s kvs sendText false =
      ({ s with chat_history := s.chat_history ++
          [Turn.mk "assistant" (sendText (pyGet kvs keyQuery))] },
       .directFlow false (sendText (pyGet kvs keyQuery))) := rfl

/-- C2 (amended): on every `Code`-classified reply, `last_generated_code`
is overwritten with the result of `_extract_code` on the reply text; in
particular a reply with no extractable fragment sets it to `None`
(clearing any previous fragment), rather than leaving it unchanged. -/
theorem C2_pending_code_amended (s : AsstState) (kvs : List (List Char × JVal))
    (sendText : Option JVal → Option String)
    (toolExec : Option JVal → JVal → String) (text : String)
    (htype : pyGet kvs keyType = some (.jstr tagCode))
    (hsend : sendText (pyGet kvs keyQuery) = some text) :
    (loopIteration s (some (.jobj kvs)) sendText toolExec).1.last_generated_code =
      (extract_code text.data).map String.mk := by
  have hk : kvs ≠ [] := by
    intro hk
    rw [hk] at htype
    simp [pyGet] at htype
  have hp : pyTruthy (JVal.jobj kvs) = true := by
    rcases kvs with _ | ⟨p0, kvs2⟩
    · exact absurd rfl hk
    · rfl
  rw [loopIteration_obj s kvs sendText toolExec hp,
      classifyDispatch_code s kvs sendText toolExec htype,
      directBranch_code_some s kvs sendText text hsend]

/-- The assistant state used to refute the retention claim. -/
def c2state : AsstState :=
  { chat_history := [⟨"system", some "p"⟩],
    last_generated_code := some "print(1)" }

/-- A classification reply with intent `CODE`. -/
def c2resp : JVal :=
  .jobj [(keyType, .jstr tagCode), (keyQuery, .jstr "hi".data)]

/-- A completion oracle returning a reply with no code fence. -/
def c2send : Option JVal → Option String := fun _ => some "no code here"

/-- A tool oracle (never used on this path). -/
def c2tool : Option JVal → JVal → String := fun _ _ => ""

/-- C2 counterexample: a `Code`-classified reply with no extractable
fragment does not leave the stored fragment unchanged — the assignment
`last_generated_code = _extract_code(response_text)` clears it to
`None`. -/
theorem C2_pending_code_counterexample :
    c2state.last_generated_code = some "print(1)" ∧
    extract_code "no code here".data = none ∧
    (loopIteration c2state (some c2resp) c2send c2tool).1.last_generated_code =
      none ∧
    (loopIteration c2state (some c2resp) c2send c2tool).1.last_generated_code ≠
      c2state.last_generated_code := by
  refine ⟨rfl, rfl, rfl, ?_⟩
  rw [show (loopIteration c2state (some c2resp) c2send
    c2tool).1.last_generated_code = none from rfl]
  simp [c2state]

/-- C2 witness: the amended overwrite equation at a concrete state. -/
theorem C2_pending_code_amended_witness :
    (loopIteration c2state (some c2resp) c2send c2tool).1.last_generated_code =
      (extract_code "no code here".data).map String.mk :=
  C2_pending_code_amended c2state _ c2send c2tool "no code here" rfl rfl

/-- C3 (amended): the generic "cannot process / try again" reply is
produced exactly for a `None`/falsy classification response or a
mapping whose `type` field is absent or falsy.  A mapping with a truthy
unrecognized `type` tag is instead handled like a conversation: a
completion request is sent and its reply appended.  A truthy
non-mapping response raises `AttributeError`, which the loop-level
handler catches (the loop continues, with no reply printed). -/
theorem C3_unknown_intent_amended (s : AsstState)
    (sendText : Option JVal → Option String)
    (toolExec : Option JVal → JVal → String) :
    (loopIteration s none sendText toolExec = (s, .cantProcess)) ∧
    (∀ r, pyTruthy r = false →
      loopIteration s (some r) sendText toolExec = (s, .cantProcess)) ∧
    (∀ kvs, pyTruthy (JVal.jobj kvs) = true → pyGet kvs keyType = none →
      loopIteration s (some (.jobj kvs)) sendText toolExec =
        (s, .cantProcess)) ∧
    (∀ kvs tv, pyTruthy (JVal.jobj kvs) = true →
      pyGet kvs keyType = some tv → pyTruthy tv = false →
      loopIteration s (some (.jobj kvs)) sendText toolExec =
        (s, .cantProcess)) ∧
    (∀ kvs tv, pyTruthy (JVal.jobj kvs) = true →
      pyGet kvs keyType = some tv → pyTruthy tv = true →
      isStrEq tv tagToolUse = false → isStrEq tv tagCode = false →
      loopIteration s (some (.jobj kvs)) sendText toolExec =
        ({ s with chat_history := s.chat_history ++
            [Turn.mk "assistant" (sendText (pyGet kvs keyQuery))] },
         .directFlow false (sendText (pyGet kvs keyQuery)))) ∧
    (∀ r, pyTruthy r = true → (∀ kvs, r ≠ .jobj kvs) →
      loopIteration s (some r) sendText toolExec =
        (s, .raised "AttributeError")) := by
  refine ⟨rfl, ?_, ?_, ?_, ?_, ?_⟩
  · intro r hr
    rw [loopIteration_some, if_pos hr]
  · intro kvs hp hg
    rw [loopIteration_obj s kvs sendText toolExec hp]
    unfold classifyDispatch
    rw [hg]
  · intro kvs tv hp hg htv
    rw [loopIteration_obj s kvs sendText toolExec hp]
    unfold classifyDispatch
    simp only [hg]
    rw [if_pos htv]
  · intro kvs tv hp hg htv h1 h2
    rw [loopIteration_obj s kvs sendText toolExec hp,
        classifyDispatch_other s kvs sendText toolExec tv hg htv h1 h2,
        directBranch_conv]
  · intro r hr hno
    rw [loopIteration_some, if_neg (by rw [hr]; simp)]
    cases r with
    | jobj kvs => exact absurd rfl (hno kvs)
    | jnull => rfl
    | jbool b => rfl
    | jnum m k => rfl
    | jstr t => rfl
    | jarr es => rfl

/-- A classification reply with an unrecognized truthy type tag. -/
def c3resp : JVal :=
  .jobj [(keyType, .jstr "SOMETHING_ELSE".data), (keyQuery, .jstr "q".data)]

/-- A completion oracle for the C3 counterexample. -/
def c3send : Option JVal → Option String := fun _ => some "a reply"

/-- C3 counterexample: a parsed response with an unknown type tag does
not produce the generic "cannot process" reply — the orchestrator falls
into the conversation branch and sends a completion request, appending
its reply. -/
theorem C3_unknown_intent_counterexample :
    (loopIteration c2state (some c3resp) c3send c2tool).2 =
      .directFlow false (some "a reply") ∧
    (loopIteration c2state (some c3resp) c3send c2tool).2 ≠
      IterOut.cantProcess := by
  refine ⟨rfl, ?_⟩
  rw [show (loopIteration c2state (some c3resp) c3send c2tool).2 =
    IterOut.directFlow false (some "a reply") from rfl]
  simp

/-- C3 witness: a falsy (null) classification response yields the
generic reply and an unchanged state. -/
theorem C3_unknown_intent_amended_witness :
    loopIteration c2state (some .jnull) c3send c2tool =
      (c2state, .cantProcess) :=
  (C3_unknown_intent_amended c2state c3send c2tool).2.1 .jnull rfl

/-- The settings state used for the C6 counterexample and witness. -/
def c6st : SettingsSt := ⟨3 / 10, 7 / 10⟩

/-- C6 counterexample: with a confirmed update, a non-numeric first
input (`ValueError` from `float`) aborts the whole dialogue, so an
in-range second value is never committed — refuting "each parameter is
accepted independently exactly when its new value is in [0.1, 1.0]". -/
theorem C6_settings_counterexample :
    manage_settings c6st "yes" none (some (1 / 2)) = (c6st, false) ∧
    inRange (1 / 2) = true ∧
    c6st.tempSearch ≠ 1 / 2 := by
  refine ⟨rfl, by norm_num [inRange], ?_⟩
  intro hq
  have : (7 : ℚ) / 10 = 1 / 2 := hq
  norm_num at this

/-- C6 (amended): in a confirmed update, when both inputs parse as
numbers each parameter is accepted independently exactly when its value
lies in [0.1, 1.0] (one may commit while the other is rejected; both
out-of-range leaves both unchanged, and only then is the update saved).
A non-numeric input aborts the dialogue at that point: parameters
already committed stay committed, the remaining ones keep their old
values regardless of what would have been entered, and nothing is
saved. -/
theorem C6_settings_amended (st : SettingsSt) (confirm : String)
    (h : confirmsYes confirm = true) :
    (∀ v1 v2, manage_settings st confirm (some v1) (some v2) =
      (⟨if inRange v1 then v1 else st.tempConversation,
        if inRange v2 then v2 else st.tempSearch⟩, true)) ∧
    (∀ i2, manage_settings st confirm none i2 = (st, false)) ∧
    (∀ v1, manage_settings st confirm (some v1) none =
      (⟨if inRange v1 then v1 else st.tempConversation,
        st.tempSearch⟩, false)) := by
  refine ⟨?_, ?_, ?_⟩
  · intro v1 v2
    unfold manage_settings
    rw [if_neg (by rw [h]; simp)]
    cases h1 : inRange v1 <;> cases h2 : inRange v2 <;> simp [h1, h2]
  · intro i2
    unfold manage_settings
    rw [if_neg (by rw [h]; simp)]
  · intro v1
    unfold manage_settings
    rw [if_neg (by rw [h]; simp)]
    cases h1 : inRange v1 <;> simp [h1]

/-- C6 witness: one in-range and one out-of-range numeric value. -/
theorem C6_settings_amended_witness :
    manage_settings c6st "yes" (some (1 / 2)) (some 5) =
      (⟨if inRange (1 / 2) then 1 / 2 else c6st.tempConversation,
        if inRange 5 then 5 else c6st.tempSearch⟩, true) :=
  (C6_settings_amended c6st "yes" rfl).1 (1 / 2) 5
